import Mathlib

/-!
Verification of the Wrath Shield v3 agentic orchestration core
(`src/services/agentic-grok/agentic_service.py`).

The embedding models:
* the SQLite-backed memory store (`memories` table) as a list of records
  plus a fresh-id counter (the `uuid4().hex` identifier is modelled as an
  opaque fresh natural number drawn from the counter);
* `execute_custom_tool`'s `memory_add` and `memory_search` branches;
* the HTTP endpoint `memory_add` (`POST /api/agentic/memory/add`);
* `AgenticOrchestrator.stream_response` as a pure function from the list
  of backend chunks (plus an optional exception raised by the backend
  iterator after those chunks) to the list of emitted events;
* `AgenticOrchestrator.create_chat`'s message assembly;
* the non-streaming `chat` endpoint.

Wall-clock timestamps carried by every event, and the SQLite `created_at`
column, are omitted: they are real-time data with no bearing on the
ordering and content properties verified here.
-/

namespace WrathShield

/-- One stored row of the `memories` table.  `metadata` models the
JSON-serialized metadata column as an association list (`None` column
value when no metadata was supplied). -/
structure MemoryRecord where
  id : Nat
  user_id : String
  text : String
  metadata : Option (List (String × String))
  deriving Repr, DecidableEq

/-- The memory database: the rows of the `memories` table in insertion
order, plus the fresh-id counter modelling `uuid4().hex` generation. -/
structure MemDB where
  rows : List MemoryRecord
  nextId : Nat
  deriving Repr, DecidableEq

/-- An empty memory database. -/
def emptyDB : MemDB := { rows := [], nextId := 0 }

/-- Number of stored rows whose (user_id, text) equals the given pair. -/
def countPair (db : MemDB) (uid t : String) : Nat :=
  (db.rows.filter fun r => r.user_id = uid ∧ r.text = t).length

/-- Arguments accepted by the `memory_add` tool (all optional in the raw
argument dict; `mtype` stands for the JSON key `type`). -/
structure MemoryAddArgs where
  text : Option String
  user_id : Option String
  mtype : Option String
  category : Option String
  date : Option String
  deriving Repr, DecidableEq

/-- Result payload of a memory-add execution: either
`\x7b"success": True, "id": ..., "dedup"?: True\x7d` (the `dedup` key is
present exactly when the Bool is `true`) or an `\x7b"error": ...\x7d`
payload. -/
inductive MemAddResult where
  | ok (id : Nat) (dedup : Bool)
  | err (msg : String)
  deriving Repr, DecidableEq

/-- `meta` dict built by the `memory_add` branch of
`execute_custom_tool`: each of type/category/date is included when the
argument is truthy (present and non-empty). -/
def buildMeta (a : MemoryAddArgs) : List (String × String) :=
  (match a.mtype with
    | some t => if t ≠ "" then [("type", t)] else []
    | none => []) ++
  (match a.category with
    | some c => if c ≠ "" then [("category", c)] else []
    | none => []) ++
  (match a.date with
    | some d => if d ≠ "" then [("date", d)] else []
    | none => [])

/-- Python `str.strip()`: drop leading and trailing whitespace.  Defined
over the character list so that it evaluates by kernel reduction. -/
def pyStrip (s : String) : String :=
  String.mk (((s.data.dropWhile Char.isWhitespace).reverse.dropWhile
    Char.isWhitespace).reverse)

/-- Python `str(arguments.get("text") or "").strip()`. -/
def effText (a : MemoryAddArgs) : String := pyStrip (a.text.getD "")

/-- Python `str(arguments.get("user_id") or "default")`. -/
def effUser (u : Option String) : String :=
  match u with
  | some s => if s = "" then "default" else s
  | none => "default"

/-- The `memory_add` branch of `execute_custom_tool` (lines 265-293 of
`agentic_service.py`): blank text (after trimming) is rejected with an
error payload; an existing row with the same (user_id, text) is returned
with a dedup marker and no write; otherwise a fresh row is inserted. -/
def memoryAddExec (a : MemoryAddArgs) (db : MemDB) : MemAddResult × MemDB :=
  let text := effText a
  if text = "" then (MemAddResult.err "text is required for memory_add", db)
  else
    let uid := effUser a.user_id
    match db.rows.find? (fun r => r.user_id = uid ∧ r.text = text) with
    | some r => (MemAddResult.ok r.id true, db)
    | none =>
        let meta := buildMeta a
        (MemAddResult.ok db.nextId false,
         { rows := db.rows ++
             [{ id := db.nextId, user_id := uid, text := text,
                metadata := if meta = [] then none else some meta }],
           nextId := db.nextId + 1 })

/-- The HTTP endpoint `POST /api/agentic/memory/add` (lines 557-569):
inserts unconditionally with a fresh id; no dedup check, no text
validation. -/
def endpointMemoryAdd (uid text : String)
    (metadata : Option (List (String × String))) (db : MemDB) :
    MemAddResult × MemDB :=
  (MemAddResult.ok db.nextId false,
   { rows := db.rows ++ [{ id := db.nextId, user_id := uid, text := text,
                           metadata := metadata }],
     nextId := db.nextId + 1 })

/-! ### Stream orchestration (`AgenticOrchestrator.stream_response`) -/

/-- Token counts of a backend `response.usage` snapshot. -/
structure Usage where
  completion_tokens : Nat
  prompt_tokens : Nat
  total_tokens : Nat
  reasoning_tokens : Nat
  deriving Repr, DecidableEq

/-- Raw arguments attached to a tool-call announcement, as seen by the
orchestrator: either a structured dict (a successfully decoded JSON
object, restricted to the fields the only inline-executed tool reads) or
an undecodable string, which the code folds into `\x7b"text": s\x7d`. -/
inductive RawArgs where
  | dict (a : MemoryAddArgs)
  | str (s : String)
  deriving Repr, DecidableEq

/-- Lines 423-428: a string argument that fails JSON decoding becomes
`\x7b"text": str(args)\x7d`; a dict is used as is. -/
def coerceArgs : RawArgs → MemoryAddArgs
  | RawArgs.dict a => a
  | RawArgs.str s =>
      { text := some s, user_id := none, mtype := none,
        category := none, date := none }

/-- One tool-call announcement inside a backend chunk. -/
structure ToolCallInfo where
  name : String
  arguments : RawArgs
  id : String
  deriving Repr, DecidableEq

/-- One backend chunk, together with the `response` snapshot available
when it arrives (`usage`, `citations`, `server_side_tool_usage`). -/
structure Chunk where
  usage : Usage
  citations : List String
  sstu : List (String × Nat)
  tool_calls : List ToolCallInfo
  content : String
  deriving Repr, DecidableEq

/-- The external event protocol (timestamps omitted). -/
inductive Event where
  | thinking (tokens : Nat)
  | toolCall (tool : String) (arguments : RawArgs) (id : String)
  | toolResult (tool : String) (result : MemAddResult)
  | responseStart
  | content (text : String)
  | complete (content : String) (citations : List String) (usage : Usage)
      (tool_calls : List ToolCallInfo) (sstu : List (String × Nat))
  | error (msg : String)
  deriving Repr, DecidableEq

def Event.isStart : Event → Bool
  | Event.responseStart => true
  | _ => false

def Event.isContent : Event → Bool
  | Event.content _ => true
  | _ => false

def Event.isToolResult : Event → Bool
  | Event.toolResult _ _ => true
  | _ => false

/-- A `tool_result` whose payload carries `success: True`. -/
def Event.isSuccessResult : Event → Bool
  | Event.toolResult _ (MemAddResult.ok _ _) => true
  | _ => false

def Event.isComplete : Event → Bool
  | Event.complete _ _ _ _ _ => true
  | _ => false

/-- A terminal event: `complete` or `error`. -/
def Event.isTerminal : Event → Bool
  | Event.complete _ _ _ _ _ => true
  | Event.error _ => true
  | _ => false

/-- The tool name carried by a `tool_call`/`tool_result` event. -/
def Event.toolName : Event → String
  | Event.toolCall t _ _ => t
  | Event.toolResult t _ => t
  | _ => ""

/-- Mutable per-stream state of the orchestrator loop. -/
structure StreamState where
  is_thinking : Bool
  accumulated_content : String
  tool_calls_made : List ToolCallInfo
  writes : Nat
  db : MemDB
  deriving Repr, DecidableEq

/-- Initial stream state (lines 391-397). -/
def initState (db : MemDB) : StreamState :=
  { is_thinking := true, accumulated_content := "", tool_calls_made := [],
    writes := 0, db := db }

/-- Processing of one tool-call announcement (lines 409-443): always
record it and emit `tool_call`; when it names a memory-write tool and the
write cap is not yet reached, execute `memory_add` inline, count a
write on success and emit `tool_result`.  (The `except` branch of the
source is unreachable here: the modelled executor is total.) -/
def processToolCall (maxW : Nat) (tc : ToolCallInfo) (s : StreamState) :
    List Event × StreamState :=
  if (tc.name = "memory_add" ∨ tc.name = "store_memory") ∧ s.writes < maxW then
    ([Event.toolCall tc.name tc.arguments tc.id,
      Event.toolResult tc.name (memoryAddExec (coerceArgs tc.arguments) s.db).1],
     { s with tool_calls_made := s.tool_calls_made ++ [tc],
              db := (memoryAddExec (coerceArgs tc.arguments) s.db).2,
              writes := s.writes +
                (match (memoryAddExec (coerceArgs tc.arguments) s.db).1 with
                 | MemAddResult.ok _ _ => 1
                 | MemAddResult.err _ => 0) })
  else
    ([Event.toolCall tc.name tc.arguments tc.id],
     { s with tool_calls_made := s.tool_calls_made ++ [tc] })

/-- Sequential processing of all tool calls of one chunk. -/
def processToolCalls (maxW : Nat) :
    List ToolCallInfo → StreamState → List Event × StreamState
  | [], s => ([], s)
  | tc :: rest, s =>
      ((processToolCall maxW tc s).1 ++
         (processToolCalls maxW rest (processToolCall maxW tc s).2).1,
       (processToolCalls maxW rest (processToolCall maxW tc s).2).2)

/-- Translation of one backend chunk (lines 398-459): a `thinking` event
when the snapshot reports reasoning tokens while still thinking, then the
tool-call events, then — on non-empty content — `response_start` at the
thinking-to-responding transition followed by the `content` event. -/
def processChunk (maxW : Nat) (c : Chunk) (s : StreamState) :
    List Event × StreamState :=
  if c.content ≠ "" then
    ((if c.usage.reasoning_tokens ≠ 0 ∧ s.is_thinking = true then
        [Event.thinking c.usage.reasoning_tokens] else []) ++
     (processToolCalls maxW c.tool_calls s).1 ++
     (if (processToolCalls maxW c.tool_calls s).2.is_thinking = true then
        [Event.responseStart] else []) ++
     [Event.content c.content],
     { (processToolCalls maxW c.tool_calls s).2 with
         is_thinking := false,
         accumulated_content :=
           (processToolCalls maxW c.tool_calls s).2.accumulated_content ++ c.content })
  else
    ((if c.usage.reasoning_tokens ≠ 0 ∧ s.is_thinking = true then
        [Event.thinking c.usage.reasoning_tokens] else []) ++
     (processToolCalls maxW c.tool_calls s).1,
     (processToolCalls maxW c.tool_calls s).2)

/-- The chunk loop of `stream_response`. -/
def runChunks (maxW : Nat) : List Chunk → StreamState → List Event × StreamState
  | [], s => ([], s)
  | c :: cs, s =>
      ((processChunk maxW c s).1 ++ (runChunks maxW cs (processChunk maxW c s).2).1,
       (runChunks maxW cs (processChunk maxW c s).2).2)

/-- `stream_response` (lines 370-486) as a function of the backend
stream: the chunks it yields, and an optional exception raised by the
backend iterator after those chunks.  On normal exhaustion the `complete`
event is built from the final accumulator and the last chunk's response
snapshot; an empty stream leaves the `response` variable unbound, so the
final-event construction raises `NameError` and the `except` clause emits
an `error` event; an iterator exception likewise surfaces as the `error`
event. -/
def streamResponse (maxW : Nat) (chunks : List Chunk) (exc : Option String)
    (db : MemDB) : List Event :=
  let p := runChunks maxW chunks (initState db)
  match exc with
  | some m => p.1 ++ [Event.error m]
  | none =>
      match chunks.getLast? with
      | none => p.1 ++ [Event.error "NameError: response is not defined"]
      | some last =>
          p.1 ++ [Event.complete p.2.accumulated_content last.citations
                    last.usage p.2.tool_calls_made last.sstu]

/-- The texts of the `content` events of an event list, in order. -/
def contentTexts (evs : List Event) : List String :=
  evs.filterMap fun e =>
    match e with
    | Event.content t => some t
    | _ => none

/-- Concatenation of a list of strings, in order. -/
def strConcat : List String → String
  | [] => ""
  | s :: rest => s ++ strConcat rest

/-- Checks that every `content` event is preceded (anywhere earlier in
the list) by a `response_start` event; the flag records whether a
`response_start` has already been seen. -/
def startBeforeContent : Bool → List Event → Bool
  | _, [] => true
  | _, Event.responseStart :: rest => startBeforeContent true rest
  | b, Event.content _ :: rest => b && startBeforeContent b rest
  | b, _ :: rest => startBeforeContent b rest

/-! ### Helper lemmas -/

theorem strConcat_append (l1 l2 : List String) :
    strConcat (l1 ++ l2) = strConcat l1 ++ strConcat l2 := by
  induction l1 with
  | nil => simp [strConcat]
  | cons s t ih => simp [strConcat, ih, String.append_assoc]

theorem contentTexts_append (l1 l2 : List Event) :
    contentTexts (l1 ++ l2) = contentTexts l1 ++ contentTexts l2 := by
  simp [contentTexts]

/-- Invariants of one tool-call step: it never emits `content`,
`response_start` or terminal events, leaves the thinking flag and the
accumulator unchanged, and advances the write counter by exactly the
number of success `tool_result` events it emits. -/
theorem processToolCall_inv (maxW : Nat) (tc : ToolCallInfo) (s : StreamState) :
    (processToolCall maxW tc s).2.is_thinking = s.is_thinking ∧
    (processToolCall maxW tc s).2.accumulated_content = s.accumulated_content ∧
    contentTexts (processToolCall maxW tc s).1 = [] ∧
    (processToolCall maxW tc s).1.countP Event.isStart = 0 ∧
    (processToolCall maxW tc s).1.countP Event.isTerminal = 0 ∧
    (processToolCall maxW tc s).2.writes
      = s.writes + (processToolCall maxW tc s).1.countP Event.isSuccessResult := by
  unfold processToolCall
  split
  · rcases hr : (memoryAddExec (coerceArgs tc.arguments) s.db).1 with ⟨id, d⟩ | ⟨m⟩ <;>
      simp [hr, contentTexts, List.countP_cons, Event.isStart, Event.isTerminal,
        Event.isSuccessResult]
  · simp [contentTexts, List.countP_cons, Event.isStart, Event.isTerminal,
      Event.isSuccessResult]

/-- The write counter never exceeds the cap across one tool-call step. -/
theorem processToolCall_writes_le (maxW : Nat) (tc : ToolCallInfo)
    (s : StreamState) (h : s.writes ≤ maxW) :
    (processToolCall maxW tc s).2.writes ≤ maxW := by
  unfold processToolCall
  split
  · rename_i hcond
    rcases hr : (memoryAddExec (coerceArgs tc.arguments) s.db).1 with ⟨id, d⟩ | ⟨m⟩ <;>
      simp [hr] <;> omega
  · simpa using h

/-- Once the write counter has reached the cap, a tool-call step only
announces the call: no execution, no `tool_result`, no state change
beyond recording the call. -/
theorem processToolCall_at_cap (maxW : Nat) (tc : ToolCallInfo)
    (s : StreamState) (h : maxW ≤ s.writes) :
    processToolCall maxW tc s
      = ([Event.toolCall tc.name tc.arguments tc.id],
         { s with tool_calls_made := s.tool_calls_made ++ [tc] }) := by
  unfold processToolCall
  rw [if_neg]
  intro hcond
  exact absurd hcond.2 (by simpa using h)

/-- Every `tool_result` emitted by a tool-call step names a memory-write
tool. -/
theorem processToolCall_result_names (maxW : Nat) (tc : ToolCallInfo)
    (s : StreamState) :
    ∀ e ∈ (processToolCall maxW tc s).1, e.isToolResult = true →
      e.toolName = "memory_add" ∨ e.toolName = "store_memory" := by
  unfold processToolCall
  split
  · rename_i hcond
    intro e he hres
    simp only [List.mem_cons, List.not_mem_nil, or_false] at he
    rcases he with rfl | rfl
    · simp [Event.isToolResult] at hres
    · rcases hcond.1 with h1 | h1 <;> simp [Event.toolName, h1]
  · intro e he hres
    simp only [List.mem_cons, List.not_mem_nil, or_false] at he
    subst he
    simp [Event.isToolResult] at hres

/-- Invariants of a whole chunk's tool-call processing, lifted from
`processToolCall_inv`. -/
theorem processToolCalls_inv (maxW : Nat) (tcs : List ToolCallInfo) :
    ∀ s : StreamState,
    (processToolCalls maxW tcs s).2.is_thinking = s.is_thinking ∧
    (processToolCalls maxW tcs s).2.accumulated_content = s.accumulated_content ∧
    contentTexts (processToolCalls maxW tcs s).1 = [] ∧
    (processToolCalls maxW tcs s).1.countP Event.isStart = 0 ∧
    (processToolCalls maxW tcs s).1.countP Event.isTerminal = 0 ∧
    (processToolCalls maxW tcs s).2.writes
      = s.writes + (processToolCalls maxW tcs s).1.countP Event.isSuccessResult := by
  induction tcs with
  | nil => intro s; simp [processToolCalls, contentTexts]
  | cons tc rest ih =>
    intro s
    obtain ⟨a1, a2, a3, a4, a5, a6⟩ := processToolCall_inv maxW tc s
    obtain ⟨b1, b2, b3, b4, b5, b6⟩ := ih (processToolCall maxW tc s).2
    refine ⟨by simp [processToolCalls, b1, a1], by simp [processToolCalls, b2, a2],
            by simp [processToolCalls, contentTexts_append, a3, b3],
            by simp [processToolCalls, List.countP_append, a4, b4],
            by simp [processToolCalls, List.countP_append, a5, b5], ?_⟩
    simp only [processToolCalls, List.countP_append]
    rw [b6, a6]
    omega

/-- The write counter never exceeds the cap across a chunk's tool-call
processing. -/
theorem processToolCalls_writes_le (maxW : Nat) (tcs : List ToolCallInfo) :
    ∀ s : StreamState, s.writes ≤ maxW →
      (processToolCalls maxW tcs s).2.writes ≤ maxW := by
  induction tcs with
  | nil => intro s h; simpa [processToolCalls] using h
  | cons tc rest ih =>
    intro s h
    exact ih _ (processToolCall_writes_le maxW tc s h)

/-- Once the cap is reached, a run of tool calls only announces them:
every emitted event is a `tool_call`, and writes and database are
untouched. -/
theorem processToolCalls_at_cap (maxW : Nat) (tcs : List ToolCallInfo) :
    ∀ s : StreamState, maxW ≤ s.writes →
      (processToolCalls maxW tcs s).1
          = tcs.map (fun tc => Event.toolCall tc.name tc.arguments tc.id) ∧
      (processToolCalls maxW tcs s).2
          = { s with tool_calls_made := s.tool_calls_made ++ tcs } := by
  induction tcs with
  | nil => intro s h; simp [processToolCalls]
  | cons tc rest ih =>
    intro s h
    have hc := processToolCall_at_cap maxW tc s h
    obtain ⟨ih1, ih2⟩ :=
      ih { s with tool_calls_made := s.tool_calls_made ++ [tc] } (by simpa using h)
    constructor
    · simp only [processToolCalls, hc, ih1]
      simp
    · simp only [processToolCalls, hc, ih2]
      simp

/-- Every `tool_result` emitted during a chunk's tool-call processing
names a memory-write tool. -/
theorem processToolCalls_result_names (maxW : Nat) (tcs : List ToolCallInfo) :
    ∀ s : StreamState, ∀ e ∈ (processToolCalls maxW tcs s).1,
      e.isToolResult = true →
        e.toolName = "memory_add" ∨ e.toolName = "store_memory" := by
  induction tcs with
  | nil => intro s e he; simp [processToolCalls] at he
  | cons tc rest ih =>
    intro s e he hres
    simp only [processToolCalls, List.mem_append] at he
    rcases he with he | he
    · exact processToolCall_result_names maxW tc s e he hres
    · exact ih _ e he hres

/-- Invariants of one chunk translation: the thinking flag clears exactly
on non-empty content; the accumulator grows by the concatenation of the
emitted `content` texts; no terminal event is emitted; `response_start`
is emitted exactly when the chunk carries content while still thinking;
writes advance by the number of success results. -/
theorem processChunk_inv (maxW : Nat) (c : Chunk) (s : StreamState) :
    (processChunk maxW c s).2.is_thinking = (s.is_thinking && (c.content == "")) ∧
    (processChunk maxW c s).2.accumulated_content
      = s.accumulated_content ++ strConcat (contentTexts (processChunk maxW c s).1) ∧
    (processChunk maxW c s).1.countP Event.isTerminal = 0 ∧
    (processChunk maxW c s).1.countP Event.isStart
      = (if s.is_thinking = true ∧ c.content ≠ "" then 1 else 0) ∧
    (processChunk maxW c s).2.writes
      = s.writes + (processChunk maxW c s).1.countP Event.isSuccessResult := by
  obtain ⟨a1, a2, a3, a4, a5, a6⟩ := processToolCalls_inv maxW c.tool_calls s
  have hth : contentTexts (if c.usage.reasoning_tokens ≠ 0 ∧ s.is_thinking = true
      then [Event.thinking c.usage.reasoning_tokens] else []) = [] := by
    split <;> simp [contentTexts]
  have hst : contentTexts (if (processToolCalls maxW c.tool_calls s).2.is_thinking = true
      then [Event.responseStart] else []) = [] := by
    split <;> simp [contentTexts]
  have hthp : ∀ p : Event → Bool, p (Event.thinking c.usage.reasoning_tokens) = false →
      List.countP p (if c.usage.reasoning_tokens ≠ 0 ∧ s.is_thinking = true
        then [Event.thinking c.usage.reasoning_tokens] else []) = 0 := by
    intro p hp
    split <;> simp [hp]
  by_cases hc : c.content = ""
  · refine ⟨?_, ?_, ?_, ?_, ?_⟩
    · simp [processChunk, hc, a1]
    · simp only [processChunk, hc, ne_eq, not_true_eq_false, if_false,
        contentTexts_append, strConcat_append, a3, hth]
      simp [strConcat, a2]
    · simp only [processChunk, hc, ne_eq, not_true_eq_false, if_false,
        List.countP_append, a5]
      rw [hthp Event.isTerminal rfl]
    · simp only [processChunk, hc, ne_eq, not_true_eq_false, if_false,
        List.countP_append, a4]
      rw [hthp Event.isStart rfl]
      simp [hc]
    · simp only [processChunk, hc, ne_eq, not_true_eq_false, if_false,
        List.countP_append, a6]
      rw [hthp Event.isSuccessResult rfl]
      omega
  · refine ⟨?_, ?_, ?_, ?_, ?_⟩
    · simp [processChunk, hc]
    · simp only [processChunk, if_pos hc, contentTexts_append, strConcat_append,
        a3, hth, hst]
      simp [contentTexts, strConcat, a2, String.append_assoc]
    · simp only [processChunk, if_pos hc, List.countP_append]
      have h1 : List.countP Event.isTerminal
          (if c.usage.reasoning_tokens ≠ 0 ∧ s.is_thinking = true then
            [Event.thinking c.usage.reasoning_tokens] else []) = 0 := by
        split <;> simp [Event.isTerminal]
      have h2 : List.countP Event.isTerminal
          (if (processToolCalls maxW c.tool_calls s).2.is_thinking = true then
            [Event.responseStart] else []) = 0 := by
        split <;> simp [Event.isTerminal]
      simp [h1, h2, a5, Event.isTerminal]
    · simp only [processChunk, if_pos hc, List.countP_append]
      have h1 : List.countP Event.isStart
          (if c.usage.reasoning_tokens ≠ 0 ∧ s.is_thinking = true then
            [Event.thinking c.usage.reasoning_tokens] else []) = 0 := by
        split <;> simp [Event.isStart]
      have h2 : List.countP Event.isStart
          (if (processToolCalls maxW c.tool_calls s).2.is_thinking = true then
            [Event.responseStart] else [])
          = (if s.is_thinking = true ∧ c.content ≠ "" then 1 else 0) := by
        rw [a1]
        by_cases hb : s.is_thinking = true <;> simp [hb, hc, Event.isStart]
      simp [h1, h2, a4, Event.isStart]
    · simp only [processChunk, if_pos hc, List.countP_append]
      have h1 : List.countP Event.isSuccessResult
          (if c.usage.reasoning_tokens ≠ 0 ∧ s.is_thinking = true then
            [Event.thinking c.usage.reasoning_tokens] else []) = 0 := by
        split <;> simp [Event.isSuccessResult]
      have h2 : List.countP Event.isSuccessResult
          (if (processToolCalls maxW c.tool_calls s).2.is_thinking = true then
            [Event.responseStart] else []) = 0 := by
        split <;> simp [Event.isSuccessResult]
      simp [h1, h2, a6, Event.isSuccessResult]

theorem mem_ite_singleton {α : Type} {b : Prop} [Decidable b] {x e : α}
    (h : e ∈ (if b then [x] else [])) : e = x := by
  split at h
  · simpa using h
  · simp at h

/-- The write counter never exceeds the cap across one chunk. -/
theorem processChunk_writes_le (maxW : Nat) (c : Chunk) (s : StreamState)
    (h : s.writes ≤ maxW) : (processChunk maxW c s).2.writes ≤ maxW := by
  have := processToolCalls_writes_le maxW c.tool_calls s h
  unfold processChunk
  split <;> simpa using this

/-- Every `tool_result` emitted for a chunk names a memory-write tool. -/
theorem processChunk_result_names (maxW : Nat) (c : Chunk) (s : StreamState) :
    ∀ e ∈ (processChunk maxW c s).1, e.isToolResult = true →
      e.toolName = "memory_add" ∨ e.toolName = "store_memory" := by
  unfold processChunk
  split
  · intro e he hres
    simp only [List.mem_append] at he
    rcases he with ((he | he) | he) | he
    · rw [mem_ite_singleton he] at hres
      simp [Event.isToolResult] at hres
    · exact processToolCalls_result_names maxW c.tool_calls s e he hres
    · rw [mem_ite_singleton he] at hres
      simp [Event.isToolResult] at hres
    · simp only [List.mem_singleton] at he
      rw [he] at hres
      simp [Event.isToolResult] at hres
  · intro e he hres
    simp only [List.mem_append] at he
    rcases he with he | he
    · rw [mem_ite_singleton he] at hres
      simp [Event.isToolResult] at hres
    · exact processToolCalls_result_names maxW c.tool_calls s e he hres

/-- The events of one chunk contain a `response_start` exactly when the
chunk carries content while the stream is still thinking. -/
theorem processChunk_any_start (maxW : Nat) (c : Chunk) (s : StreamState) :
    (processChunk maxW c s).1.any Event.isStart
      = (s.is_thinking && !(c.content == "")) := by
  obtain ⟨a1, a2, a3, a4, a5, a6⟩ := processToolCalls_inv maxW c.tool_calls s
  have hpt : (processToolCalls maxW c.tool_calls s).1.any Event.isStart = false := by
    rw [List.any_eq_false]
    intro e he
    have := List.countP_eq_zero.mp a4 e he
    simpa using this
  have h1 : (if c.usage.reasoning_tokens ≠ 0 ∧ s.is_thinking = true then
      [Event.thinking c.usage.reasoning_tokens] else []).any Event.isStart = false := by
    split <;> simp [Event.isStart]
  by_cases hc : c.content = ""
  · simp [processChunk, hc, List.any_append, hpt, h1]
  · have h2 : (if (processToolCalls maxW c.tool_calls s).2.is_thinking = true then
        [Event.responseStart] else []).any Event.isStart
        = (processToolCalls maxW c.tool_calls s).2.is_thinking := by
      cases hb : (processToolCalls maxW c.tool_calls s).2.is_thinking <;>
        simp [hb, Event.isStart]
    simp only [processChunk, if_pos hc, List.any_append, hpt, h1, h2, a1]
    cases s.is_thinking <;> simp [hc, Event.isStart]

/-- The negated thinking flag after a chunk equals its old value or-ed
with whether the chunk emitted `response_start`. -/
theorem processChunk_flag (maxW : Nat) (c : Chunk) (s : StreamState) :
    ((!s.is_thinking) || (processChunk maxW c s).1.any Event.isStart)
      = !(processChunk maxW c s).2.is_thinking := by
  rw [processChunk_any_start, (processChunk_inv maxW c s).1]
  cases s.is_thinking <;> cases hb : (c.content == "") <;> simp

/-- `response_start` counting, written additively so it composes across
chunks: starts emitted plus the old phase indicator equals the new phase
indicator (0 while thinking, 1 once responding). -/
theorem processChunk_bn (maxW : Nat) (c : Chunk) (s : StreamState) :
    (processChunk maxW c s).1.countP Event.isStart
        + (if s.is_thinking = true then 0 else 1)
      = (if (processChunk maxW c s).2.is_thinking = true then 0 else 1) := by
  obtain ⟨f1, _, _, f4, _⟩ := processChunk_inv maxW c s
  rw [f4, f1]
  cases hs : s.is_thinking
  · simp [hs]
  · by_cases hcc : c.content = "" <;> simp [hcc]

theorem sbc_true (l : List Event) : startBeforeContent true l = true := by
  induction l with
  | nil => rfl
  | cons e t ih => cases e <;> simp [startBeforeContent, ih]

theorem sbc_append (l1 l2 : List Event) : ∀ b : Bool,
    startBeforeContent b (l1 ++ l2)
      = (startBeforeContent b l1
          && startBeforeContent (b || l1.any Event.isStart) l2) := by
  induction l1 with
  | nil => intro b; simp [startBeforeContent]
  | cons e t ih =>
    intro b
    cases e <;>
      simp [startBeforeContent, Event.isStart, ih, Bool.and_assoc, sbc_true]

theorem sbc_of_no_content (l : List Event)
    (h : ∀ e ∈ l, e.isContent = false) :
    ∀ b : Bool, startBeforeContent b l = true := by
  induction l with
  | nil => intro b; rfl
  | cons e t ih =>
    intro b
    have he := h e (List.mem_cons_self _ _)
    have ht : ∀ x ∈ t, x.isContent = false :=
      fun x hx => h x (List.mem_cons_of_mem _ hx)
    cases e
    case content t' => simp [Event.isContent] at he
    all_goals simp [startBeforeContent, ih ht]

/-- No `content` event precedes `response_start` within one chunk's
events, relative to the current phase. -/
theorem processChunk_sbc (maxW : Nat) (c : Chunk) (s : StreamState) :
    startBeforeContent (!s.is_thinking) (processChunk maxW c s).1 = true := by
  obtain ⟨a1, a2, a3, a4, a5, a6⟩ := processToolCalls_inv maxW c.tool_calls s
  have hptc : ∀ e ∈ (processToolCalls maxW c.tool_calls s).1, e.isContent = false := by
    intro e he
    have hnil := List.filterMap_eq_nil_iff.mp a3 e he
    cases e <;> first
      | rfl
      | simp [contentTexts] at hnil
  have hpt_any : (processToolCalls maxW c.tool_calls s).1.any Event.isStart = false := by
    rw [List.any_eq_false]
    intro e he
    have := List.countP_eq_zero.mp a4 e he
    simpa using this
  have hth_nc : ∀ e ∈ (if c.usage.reasoning_tokens ≠ 0 ∧ s.is_thinking = true then
      [Event.thinking c.usage.reasoning_tokens] else []), e.isContent = false := by
    intro e he
    rw [mem_ite_singleton he]
    simp [Event.isContent]
  have hth_any : (if c.usage.reasoning_tokens ≠ 0 ∧ s.is_thinking = true then
      [Event.thinking c.usage.reasoning_tokens] else []).any Event.isStart = false := by
    split <;> simp [Event.isStart]
  by_cases hc : c.content = ""
  · simp only [processChunk, hc, ne_eq, not_true_eq_false, if_false]
    apply sbc_of_no_content
    intro e he
    rcases List.mem_append.mp he with he | he
    · exact hth_nc e he
    · exact hptc e he
  · simp only [processChunk, if_pos hc]
    rw [List.append_assoc, List.append_assoc, sbc_append, sbc_append]
    rw [hth_any, hpt_any]
    simp only [Bool.or_false]
    have hpre1 : startBeforeContent (!s.is_thinking)
        (if c.usage.reasoning_tokens ≠ 0 ∧ s.is_thinking = true then
          [Event.thinking c.usage.reasoning_tokens] else []) = true :=
      sbc_of_no_content _ hth_nc _
    have hpre2 : startBeforeContent (!s.is_thinking)
        (processToolCalls maxW c.tool_calls s).1 = true :=
      sbc_of_no_content _ hptc _
    rw [hpre1, hpre2]
    rw [a1]
    cases hs : s.is_thinking <;>
      simp [startBeforeContent, sbc_true, hs]

/-- Invariants of the whole chunk loop: accumulator equals the initial
content plus the concatenation of emitted `content` texts, no terminal
event is emitted by the loop body, writes advance by the number of
success results, and the thinking flag survives exactly when every chunk
had empty content. -/
theorem runChunks_inv (maxW : Nat) (chs : List Chunk) : ∀ s : StreamState,
    (runChunks maxW chs s).2.accumulated_content
      = s.accumulated_content ++ strConcat (contentTexts (runChunks maxW chs s).1) ∧
    (runChunks maxW chs s).1.countP Event.isTerminal = 0 ∧
    (runChunks maxW chs s).2.writes
      = s.writes + (runChunks maxW chs s).1.countP Event.isSuccessResult ∧
    (runChunks maxW chs s).2.is_thinking
      = (s.is_thinking && chs.all fun c => c.content == "") := by
  induction chs with
  | nil => intro s; simp [runChunks, contentTexts, strConcat]
  | cons c t ih =>
    intro s
    obtain ⟨f1, f2, f3, f4, f5⟩ := processChunk_inv maxW c s
    obtain ⟨g1, g2, g3, g4⟩ := ih (processChunk maxW c s).2
    refine ⟨?_, ?_, ?_, ?_⟩
    · simp only [runChunks, contentTexts_append, strConcat_append]
      rw [g1, f2, String.append_assoc]
    · simp only [runChunks, List.countP_append, f3, g2]
    · simp only [runChunks, List.countP_append]
      rw [g3, f5]
      omega
    · simp only [runChunks, List.all_cons]
      rw [g4, f1, Bool.and_assoc]

/-- The write counter never exceeds the cap across the whole loop. -/
theorem runChunks_writes_le (maxW : Nat) (chs : List Chunk) :
    ∀ s : StreamState, s.writes ≤ maxW →
      (runChunks maxW chs s).2.writes ≤ maxW := by
  induction chs with
  | nil => intro s h; simpa [runChunks] using h
  | cons c t ih =>
    intro s h
    exact ih _ (processChunk_writes_le maxW c s h)

/-- Additive `response_start` count across the loop. -/
theorem runChunks_bn (maxW : Nat) (chs : List Chunk) : ∀ s : StreamState,
    (runChunks maxW chs s).1.countP Event.isStart
        + (if s.is_thinking = true then 0 else 1)
      = (if (runChunks maxW chs s).2.is_thinking = true then 0 else 1) := by
  induction chs with
  | nil => intro s; simp [runChunks]
  | cons c t ih =>
    intro s
    have h1 := processChunk_bn maxW c s
    have h2 := ih (processChunk maxW c s).2
    simp only [runChunks, List.countP_append]
    omega

/-- No `content` event precedes `response_start` across the loop. -/
theorem runChunks_sbc (maxW : Nat) (chs : List Chunk) : ∀ s : StreamState,
    startBeforeContent (!s.is_thinking) (runChunks maxW chs s).1 = true := by
  induction chs with
  | nil => intro s; rfl
  | cons c t ih =>
    intro s
    simp only [runChunks]
    rw [sbc_append, processChunk_sbc, processChunk_flag, ih]
    rfl

/-- Every `tool_result` emitted by the loop names a memory-write tool. -/
theorem runChunks_result_names (maxW : Nat) (chs : List Chunk) :
    ∀ s : StreamState, ∀ e ∈ (runChunks maxW chs s).1,
      e.isToolResult = true →
        e.toolName = "memory_add" ∨ e.toolName = "store_memory" := by
  induction chs with
  | nil => intro s e he; simp [runChunks] at he
  | cons c t ih =>
    intro s e he hres
    simp only [runChunks, List.mem_append] at he
    rcases he with he | he
    · exact processChunk_result_names maxW c s e he hres
    · exact ih _ e he hres

/-- The terminal event appended by `streamResponse` after the loop. -/
def terminalEvent (maxW : Nat) (chunks : List Chunk) (exc : Option String)
    (db : MemDB) : Event :=
  match exc with
  | some m => Event.error m
  | none =>
      match chunks.getLast? with
      | none => Event.error "NameError: response is not defined"
      | some last =>
          Event.complete (runChunks maxW chunks (initState db)).2.accumulated_content
            last.citations last.usage
            (runChunks maxW chunks (initState db)).2.tool_calls_made last.sstu

theorem streamResponse_eq (maxW : Nat) (chunks : List Chunk)
    (exc : Option String) (db : MemDB) :
    streamResponse maxW chunks exc db
      = (runChunks maxW chunks (initState db)).1
          ++ [terminalEvent maxW chunks exc db] := by
  cases exc with
  | some m => rfl
  | none =>
      cases h : chunks.getLast? with
      | none => simp [streamResponse, terminalEvent, h]
      | some last => simp [streamResponse, terminalEvent, h]

theorem terminalEvent_isTerminal (maxW : Nat) (chunks : List Chunk)
    (exc : Option String) (db : MemDB) :
    (terminalEvent maxW chunks exc db).isTerminal = true := by
  unfold terminalEvent
  cases exc with
  | some m => rfl
  | none => cases h : chunks.getLast? <;> simp [h, Event.isTerminal]

theorem isStart_of_isTerminal (e : Event) (h : e.isTerminal = true) :
    e.isStart = false := by
  cases e <;> first
    | rfl
    | simp [Event.isTerminal] at h

theorem isContent_of_isTerminal (e : Event) (h : e.isTerminal = true) :
    e.isContent = false := by
  cases e <;> first
    | rfl
    | simp [Event.isTerminal] at h

theorem isSuccess_of_isTerminal (e : Event) (h : e.isTerminal = true) :
    e.isSuccessResult = false := by
  cases e <;> first
    | rfl
    | simp [Event.isTerminal] at h

theorem isToolResult_of_isTerminal (e : Event) (h : e.isTerminal = true) :
    e.isToolResult = false := by
  cases e <;> first
    | rfl
    | simp [Event.isTerminal] at h

theorem contentTexts_terminal (maxW : Nat) (chunks : List Chunk)
    (exc : Option String) (db : MemDB) :
    contentTexts [terminalEvent maxW chunks exc db] = [] := by
  have h := isContent_of_isTerminal _ (terminalEvent_isTerminal maxW chunks exc db)
  cases he : terminalEvent maxW chunks exc db
  case content t =>
    rw [he] at h
    simp [Event.isContent] at h
  all_goals simp [contentTexts]

/-- C1: whenever a stream's event list contains a `complete` event, its
`content` field equals the concatenation, in arrival order, of the texts
of all `content` events of that stream. -/
theorem C1_complete_content_concat (maxW : Nat) (chunks : List Chunk)
    (exc : Option String) (db : MemDB) (cstr : String) (cits : List String)
    (u : Usage) (tcs : List ToolCallInfo) (sstu : List (String × Nat))
    (h : Event.complete cstr cits u tcs sstu ∈ streamResponse maxW chunks exc db) :
    cstr = strConcat (contentTexts (streamResponse maxW chunks exc db)) := by
  obtain ⟨g1, g2, g3, g4⟩ := runChunks_inv maxW chunks (initState db)
  rw [streamResponse_eq] at h ⊢
  rw [contentTexts_append, contentTexts_terminal, List.append_nil]
  rcases List.mem_append.mp h with h | h
  · have hbody := List.countP_eq_zero.mp g2 _ h
    simp [Event.isTerminal] at hbody
  · simp only [List.mem_singleton] at h
    unfold terminalEvent at h
    cases exc with
    | some m => simp at h
    | none =>
        cases hl : chunks.getLast? with
        | none => rw [hl] at h; simp at h
        | some last =>
            rw [hl] at h
            have hc : cstr = (runChunks maxW chunks (initState db)).2.accumulated_content := by
              injection h
            rw [hc, g1]
            simp [initState]

/-- C7: every stream ends in exactly one terminal event (`complete` or
`error`), nothing follows it, and a backend failure after the processed
chunks yields the `error` terminal event. -/
theorem C7_single_terminal (maxW : Nat) (chunks : List Chunk)
    (exc : Option String) (db : MemDB) :
    (streamResponse maxW chunks exc db).countP Event.isTerminal = 1 ∧
    (∃ e, (streamResponse maxW chunks exc db).getLast? = some e ∧
      e.isTerminal = true) ∧
    (∀ m : String, exc = some m →
      (streamResponse maxW chunks exc db).getLast? = some (Event.error m)) := by
  obtain ⟨g1, g2, g3, g4⟩ := runChunks_inv maxW chunks (initState db)
  refine ⟨?_, ?_, ?_⟩
  · rw [streamResponse_eq, List.countP_append, g2]
    simp [terminalEvent_isTerminal]
  · refine ⟨terminalEvent maxW chunks exc db, ?_, terminalEvent_isTerminal _ _ _ _⟩
    rw [streamResponse_eq]
    exact List.getLast?_concat _
  · intro m hm
    subst hm
    rw [streamResponse_eq]
    have : terminalEvent maxW chunks (some m) db = Event.error m := rfl
    rw [this]
    exact List.getLast?_concat _

/-- C2: `response_start` is emitted at most once per stream, never after
(or without) being followed by the stream's `content` events — i.e. no
`content` event precedes it — and it occurs exactly when some chunk of
the stream carries response text. -/
theorem C2_response_start (maxW : Nat) (chunks : List Chunk)
    (exc : Option String) (db : MemDB) :
    (streamResponse maxW chunks exc db).countP Event.isStart ≤ 1 ∧
    startBeforeContent false (streamResponse maxW chunks exc db) = true ∧
    ((∃ e ∈ streamResponse maxW chunks exc db, e.isStart = true)
      ↔ ∃ c ∈ chunks, c.content ≠ "") := by
  have hbn : (runChunks maxW chunks (initState db)).1.countP Event.isStart
      = (if (runChunks maxW chunks (initState db)).2.is_thinking = true
          then 0 else 1) := by
    have h := runChunks_bn maxW chunks (initState db)
    simpa [initState] using h
  have hall : (runChunks maxW chunks (initState db)).2.is_thinking
      = chunks.all (fun c => c.content == "") := by
    have h := (runChunks_inv maxW chunks (initState db)).2.2.2
    simpa [initState] using h
  have hterm := terminalEvent_isTerminal maxW chunks exc db
  have htstart := isStart_of_isTerminal _ hterm
  refine ⟨?_, ?_, ?_⟩
  · rw [streamResponse_eq, List.countP_append]
    have h1 : List.countP Event.isStart [terminalEvent maxW chunks exc db] = 0 := by
      simp [htstart]
    rw [h1, hbn]
    split <;> omega
  · rw [streamResponse_eq, sbc_append]
    have h1 : startBeforeContent false (runChunks maxW chunks (initState db)).1 = true := by
      have := runChunks_sbc maxW chunks (initState db)
      simpa [initState] using this
    have h2 : ∀ b : Bool, startBeforeContent b [terminalEvent maxW chunks exc db] = true := by
      apply sbc_of_no_content
      intro e he
      simp only [List.mem_singleton] at he
      rw [he]
      exact isContent_of_isTerminal _ hterm
    rw [h1, h2]
    rfl
  · constructor
    · rintro ⟨e, he, hstart⟩
      rw [streamResponse_eq] at he
      rcases List.mem_append.mp he with he | he
      · cases hfin : (runChunks maxW chunks (initState db)).2.is_thinking
        · rw [hfin] at hall
          obtain ⟨c, hc, hcc⟩ := List.all_eq_false.mp hall.symm
          exact ⟨c, hc, by simpa using hcc⟩
        · have hc0 : (runChunks maxW chunks (initState db)).1.countP Event.isStart = 0 := by
            rw [hbn, hfin]
            simp
          have hpos : 0 < (runChunks maxW chunks (initState db)).1.countP Event.isStart :=
            List.countP_pos_iff.mpr ⟨e, he, hstart⟩
          omega
      · simp only [List.mem_singleton] at he
        rw [he, htstart] at hstart
        exact absurd hstart (by simp)
    · rintro ⟨c, hc, hne⟩
      have hnall : chunks.all (fun c => c.content == "") = false :=
        List.all_eq_false.mpr ⟨c, hc, by simpa using hne⟩
      have hfin : (runChunks maxW chunks (initState db)).2.is_thinking = false := by
        rw [hall, hnall]
      have hc1 : (runChunks maxW chunks (initState db)).1.countP Event.isStart = 1 := by
        rw [hbn, hfin]
        simp
      have hpos : 0 < (runChunks maxW chunks (initState db)).1.countP Event.isStart := by
        omega
      obtain ⟨e, he, hst⟩ := List.countP_pos_iff.mp hpos
      refine ⟨e, ?_, hst⟩
      rw [streamResponse_eq]
      exact List.mem_append.mpr (Or.inl he)

/-- C3 (amended): the writes counter never exceeds the cap `maxW`; at
most `maxW` success `tool_result` events occur per stream; and once the
counter has reached the cap, subsequent memory_add calls are not executed
— no `tool_result` event, no database change, no counter change. -/
theorem C3_write_cap (maxW : Nat) (chunks : List Chunk) (exc : Option String)
    (db : MemDB) (tcs : List ToolCallInfo) (s : StreamState)
    (hcap : maxW ≤ s.writes) :
    (runChunks maxW chunks (initState db)).2.writes ≤ maxW ∧
    (streamResponse maxW chunks exc db).countP Event.isSuccessResult ≤ maxW ∧
    (processToolCalls maxW tcs s).1.countP Event.isToolResult = 0 ∧
    (processToolCalls maxW tcs s).2.db = s.db ∧
    (processToolCalls maxW tcs s).2.writes = s.writes := by
  have hw : (runChunks maxW chunks (initState db)).2.writes ≤ maxW :=
    runChunks_writes_le maxW chunks (initState db) (by simp [initState])
  obtain ⟨hshape, hstate⟩ := processToolCalls_at_cap maxW tcs s hcap
  refine ⟨hw, ?_, ?_, ?_, ?_⟩
  · rw [streamResponse_eq, List.countP_append]
    have hterm0 : List.countP Event.isSuccessResult
        [terminalEvent maxW chunks exc db] = 0 := by
      simp [isSuccess_of_isTerminal _ (terminalEvent_isTerminal maxW chunks exc db)]
    have hbody : (runChunks maxW chunks (initState db)).2.writes
        = (runChunks maxW chunks (initState db)).1.countP Event.isSuccessResult := by
      have h := (runChunks_inv maxW chunks (initState db)).2.2.1
      simpa [initState] using h
    rw [hterm0]
    omega
  · rw [hshape, List.countP_eq_zero]
    intro e he
    obtain ⟨tc, htc, rfl⟩ := List.mem_map.mp he
    simp [Event.isToolResult]
  · rw [hstate]
  · rw [hstate]

/-- C5 (amended): every `tool_result` event of a stream names a
memory-write tool (`memory_add`/`store_memory`) — other client tools are
never executed inline — and a memory-write tool call arriving under the
cap is executed synchronously via the tool executor, its `tool_result`
immediately following the `tool_call` event. -/
theorem C5_inline_execution (maxW : Nat) (chunks : List Chunk)
    (exc : Option String) (db : MemDB) (tc : ToolCallInfo) (s : StreamState)
    (hname : tc.name = "memory_add" ∨ tc.name = "store_memory")
    (hw : s.writes < maxW) :
    (∀ e ∈ streamResponse maxW chunks exc db, e.isToolResult = true →
        e.toolName = "memory_add" ∨ e.toolName = "store_memory") ∧
    (processToolCall maxW tc s).1
      = [Event.toolCall tc.name tc.arguments tc.id,
         Event.toolResult tc.name
           (memoryAddExec (coerceArgs tc.arguments) s.db).1] := by
  constructor
  · intro e he hres
    rw [streamResponse_eq] at he
    rcases List.mem_append.mp he with he | he
    · exact runChunks_result_names maxW chunks (initState db) e he hres
    · simp only [List.mem_singleton] at he
      rw [he, isToolResult_of_isTerminal _
        (terminalEvent_isTerminal maxW chunks exc db)] at hres
      exact absurd hres (by simp)
  · unfold processToolCall
    rw [if_pos ⟨hname, hw⟩]

/-! ### Concrete inputs used by the counterexamples and witnesses -/

/-- An all-zero usage snapshot. -/
def usage0 : Usage :=
  { completion_tokens := 0, prompt_tokens := 0, total_tokens := 0,
    reasoning_tokens := 0 }

/-- A `memory_add` call whose text argument is blank (fails validation). -/
def tcBlank : ToolCallInfo :=
  { name := "memory_add",
    arguments := RawArgs.dict
      { text := some "", user_id := none, mtype := none, category := none,
        date := none },
    id := "t1" }

/-- A well-formed `memory_add` call. -/
def tcGood : ToolCallInfo :=
  { name := "memory_add",
    arguments := RawArgs.dict
      { text := some "hi", user_id := none, mtype := none, category := none,
        date := none },
    id := "t2" }

/-- A `whoop_data_query` call (a client tool that is not a memory write). -/
def tcWhoop : ToolCallInfo :=
  { name := "whoop_data_query",
    arguments := RawArgs.dict
      { text := none, user_id := none, mtype := none, category := none,
        date := none },
    id := "w1" }

/-- A chunk with two attempted `memory_add` calls, the first blank. -/
def capChunk : Chunk :=
  { usage := usage0, citations := [], sstu := [],
    tool_calls := [tcBlank, tcGood], content := "" }

/-- A chunk announcing a `whoop_data_query` tool call. -/
def whoopChunk : Chunk :=
  { usage := usage0, citations := [], sstu := [], tool_calls := [tcWhoop],
    content := "" }

/-- Content-only chunks. -/
def chunkAB : Chunk :=
  { usage := usage0, citations := [], sstu := [], tool_calls := [],
    content := "ab" }

def chunkCD : Chunk :=
  { usage := usage0, citations := [], sstu := [], tool_calls := [],
    content := "cd" }

/-- A stream state already at a write cap of 1. -/
def capState : StreamState :=
  { is_thinking := true, accumulated_content := "", tool_calls_made := [],
    writes := 1, db := emptyDB }

/-- C3 counterexample: with cap K = 1 and M = 2 attempted `memory_add`
calls in one stream — the first with blank text — the stream still emits
a `tool_result` for the second attempt (the attempt beyond the Kth),
because a failed attempt does not advance the write counter.  The
claim's "no tool_result at all is emitted for attempts beyond the Kth"
is false on this input: there are 2 attempts (2 `tool_call` events named
memory_add) and 2 `tool_result` events. -/
theorem C3_counterexample :
    (streamResponse 1 [capChunk] none emptyDB).countP
        (fun e => !e.isToolResult && (e.toolName == "memory_add")) = 2 ∧
    (streamResponse 1 [capChunk] none emptyDB).countP
        (fun e => e.isToolResult) = 2 := by
  constructor
  · rfl
  · rfl

/-- C5 counterexample: a stream whose only tool call names
`whoop_data_query` — a client-executed tool — emits the `tool_call` event
but no `tool_result` at all: the orchestrator does not execute it. -/
theorem C5_counterexample :
    (streamResponse 3 [whoopChunk] none emptyDB).countP
        (fun e => !e.isToolResult && (e.toolName == "whoop_data_query")) = 1 ∧
    (streamResponse 3 [whoopChunk] none emptyDB).countP
        (fun e => e.isToolResult) = 0 := by
  constructor
  · rfl
  · rfl

/-- C4: calling the tool-executor `memory_add` twice with the identical
(user_id, text) pair — text non-blank, pair not yet stored — returns
`success` with a fresh id `X` and no dedup marker on the first call, and
`success` with the same id `X` and the dedup marker on the second call,
which inserts no new row: the stored count for the pair stays 1. -/
theorem C4_memory_add_dedup (uid text : String) (db : MemDB)
    (htrim : pyStrip text = text) (hne : text ≠ "") (huid : uid ≠ "")
    (hfresh : countPair db uid text = 0) :
    ∃ X db1,
      memoryAddExec { text := some text, user_id := some uid, mtype := none,
                      category := none, date := none } db
          = (MemAddResult.ok X false, db1) ∧
      memoryAddExec { text := some text, user_id := some uid, mtype := none,
                      category := none, date := none } db1
          = (MemAddResult.ok X true, db1) ∧
      countPair db1 uid text = 1 := by
  have hflt : db.rows.filter (fun r => r.user_id = uid ∧ r.text = text) = [] := by
    have := hfresh
    unfold countPair at this
    exact List.length_eq_zero.mp this
  have hnone :
      db.rows.find? (fun r => decide (r.user_id = uid ∧ r.text = text)) = none := by
    rw [List.find?_eq_none]
    intro r hr
    have := List.filter_eq_nil_iff.mp hflt r hr
    simpa using this
  refine ⟨db.nextId,
    { rows := db.rows ++
        [{ id := db.nextId, user_id := uid, text := text, metadata := none }],
      nextId := db.nextId + 1 }, ?_, ?_, ?_⟩
  · unfold memoryAddExec effText effUser
    simp only [Option.getD, htrim]
    rw [if_neg hne, if_neg huid]
    rw [hnone]
    simp [buildMeta]
  · unfold memoryAddExec effText effUser
    simp only [Option.getD, htrim]
    rw [if_neg hne, if_neg huid]
    rw [List.find?_append, hnone]
    simp
  · unfold countPair
    simp only [List.filter_append, hflt]
    simp

/-- C10: the HTTP `memory_add` endpoint inserts unconditionally with a
fresh id and returns success with no dedup marker; two identical calls
(any text, including the empty string) create two rows with distinct ids,
raising the stored count for the pair by 2. -/
theorem C10_endpoint_memory_add_no_dedup (uid text : String)
    (meta : Option (List (String × String))) (db : MemDB) :
    (endpointMemoryAdd uid text meta db).1 = MemAddResult.ok db.nextId false ∧
    (endpointMemoryAdd uid text meta (endpointMemoryAdd uid text meta db).2).1
        = MemAddResult.ok (db.nextId + 1) false ∧
    db.nextId ≠ db.nextId + 1 ∧
    ((endpointMemoryAdd uid text meta (endpointMemoryAdd uid text meta db).2).2).rows
        = db.rows ++
            [{ id := db.nextId, user_id := uid, text := text, metadata := meta },
             { id := db.nextId + 1, user_id := uid, text := text, metadata := meta }] ∧
    countPair (endpointMemoryAdd uid text meta (endpointMemoryAdd uid text meta db).2).2
        uid text = countPair db uid text + 2 := by
  refine ⟨rfl, rfl, Nat.ne_of_lt (Nat.lt_succ_self _), by simp [endpointMemoryAdd], ?_⟩
  unfold endpointMemoryAdd countPair
  simp [List.filter_append]

/-! ### Non-streaming chat endpoint (`POST /api/agentic/chat`) -/

/-- Body returned by the non-streaming `chat` endpoint: either an event
serialized as JSON, or the fixed fallback body
`\x7b"error": "No response generated"\x7d`. -/
inductive ChatResponse where
  | event (e : Event)
  | noResponse
  deriving Repr, DecidableEq

/-- `chat` (lines 643-663): drains the stream, keeps the last `complete`
event as `final_response`, and returns it, or the fixed fallback when no
`complete` event occurred. -/
def chatEndpoint (maxW : Nat) (chunks : List Chunk) (exc : Option String)
    (db : MemDB) : ChatResponse :=
  match ((streamResponse maxW chunks exc db).filter Event.isComplete).getLast? with
  | some e => ChatResponse.event e
  | none => ChatResponse.noResponse

theorem isTerminal_of_isComplete (e : Event) (h : e.isComplete = true) :
    e.isTerminal = true := by
  cases e <;> first
    | rfl
    | simp [Event.isComplete] at h

/-- The loop body never emits a `complete` event. -/
theorem body_filter_complete_nil (maxW : Nat) (chunks : List Chunk)
    (db : MemDB) :
    (runChunks maxW chunks (initState db)).1.filter Event.isComplete = [] := by
  rw [List.filter_eq_nil_iff]
  intro e he hc
  have h0 := List.countP_eq_zero.mp
    (runChunks_inv maxW chunks (initState db)).2.1 e he
  exact h0 (isTerminal_of_isComplete e hc)

/-- C8 (amended): the non-streaming endpoint returns the stream's
`complete` event when the stream completes; when the stream errors (no
`complete` event is produced), it returns the fixed fallback body, not
the stream's `error` event. -/
theorem C8_chat_endpoint (maxW : Nat) (chunks : List Chunk) (db : MemDB)
    (m : String) :
    (∀ e, (streamResponse maxW chunks none db).getLast? = some e →
        e.isComplete = true →
        chatEndpoint maxW chunks none db = ChatResponse.event e) ∧
    chatEndpoint maxW chunks (some m) db = ChatResponse.noResponse := by
  constructor
  · intro e hlast hc
    rw [streamResponse_eq, List.getLast?_concat] at hlast
    have he : terminalEvent maxW chunks none db = e := by
      injection hlast
    unfold chatEndpoint
    rw [streamResponse_eq, List.filter_append, body_filter_complete_nil,
      List.nil_append, he]
    simp only [List.filter, hc]
    rfl
  · unfold chatEndpoint
    rw [streamResponse_eq, List.filter_append, body_filter_complete_nil,
      List.nil_append]
    have ht : terminalEvent maxW chunks (some m) db = Event.error m := rfl
    rw [ht]
    rfl

/-- C8 counterexample: an erroring stream terminates with the `error`
event, but the non-streaming endpoint returns the fixed fallback body
`\x7b"error": "No response generated"\x7d` — not that `error` event as
the claim states. -/
theorem C8_counterexample :
    streamResponse 3 [] (some "boom") emptyDB = [Event.error "boom"] ∧
    chatEndpoint 3 [] (some "boom") emptyDB = ChatResponse.noResponse ∧
    ChatResponse.noResponse ≠ ChatResponse.event (Event.error "boom") := by
  refine ⟨rfl, rfl, ?_⟩
  intro h
  exact absurd h (by simp)

/-! ### Session builder (`AgenticOrchestrator.create_chat`) -/

/-- One entry of `conversation_history`. -/
structure HistMsg where
  role : String
  content : String
  deriving Repr, DecidableEq

/-- A message appended to the chat session. -/
inductive Message where
  | system (text : String)
  | user (text : String)
  | assistant (text : String)
  deriving Repr, DecidableEq

/-- The fixed memory-usage policy injected first (lines 338-344). -/
def memoryPolicy : String :=
  "You have tools memory_search and memory_add. " ++
  "Save memories only when they are durable and beneficial: stable preferences, long-term goals, " ++
  "biographical details shared explicitly, or dated anchors/todos. Avoid secrets or ephemeral facts. " ++
  "Use memory_add sparingly (max a few per session). Include type/category/date when appropriate."

/-- The policy message plus the optional caller system prompt; the prompt
is appended only when truthy (Python `if system_prompt:` — present AND
non-empty). -/
def policyAndPrompt (sp : Option String) : List Message :=
  match sp with
  | some s =>
      if s ≠ "" then [Message.system memoryPolicy, Message.system s]
      else [Message.system memoryPolicy]
  | none => [Message.system memoryPolicy]

/-- The history loop body (lines 351-356): append a user turn for role
"user", an assistant turn for role "assistant", nothing otherwise. -/
def histStep (acc : List Message) (msg : HistMsg) : List Message :=
  if msg.role = "user" then acc ++ [Message.user msg.content]
  else if msg.role = "assistant" then acc ++ [Message.assistant msg.content]
  else acc

/-- `create_chat` message assembly (lines 328-368). -/
def createChatMessages (sp : Option String) (hist : Option (List HistMsg)) :
    List Message :=
  match hist with
  | some h => h.foldl histStep (policyAndPrompt sp)
  | none => policyAndPrompt sp

/-- Declarative per-entry role mapping, for stating C9. -/
def roleMap (m : HistMsg) : Option Message :=
  if m.role = "user" then some (Message.user m.content)
  else if m.role = "assistant" then some (Message.assistant m.content)
  else none

theorem foldl_histStep (h : List HistMsg) : ∀ acc : List Message,
    h.foldl histStep acc = acc ++ h.filterMap roleMap := by
  induction h with
  | nil => intro acc; simp
  | cons m t ih =>
    intro acc
    rw [List.foldl_cons, List.filterMap_cons]
    by_cases h1 : m.role = "user"
    · rw [show histStep acc m = acc ++ [Message.user m.content] from by
          simp [histStep, h1],
        show roleMap m = some (Message.user m.content) from by
          simp [roleMap, h1],
        ih]
      simp
    · by_cases h2 : m.role = "assistant"
      · rw [show histStep acc m = acc ++ [Message.assistant m.content] from by
            simp [histStep, h1, h2],
          show roleMap m = some (Message.assistant m.content) from by
            simp [roleMap, h1, h2],
          ih]
        simp
      · rw [show histStep acc m = acc from by simp [histStep, h1, h2],
          show roleMap m = none from by simp [roleMap, h1, h2],
          ih]

/-- C9 (amended): the built message sequence is the fixed memory policy,
then the caller's system prompt if present AND non-empty, then the
history turns in order with role "user" mapped to a user turn, role
"assistant" to an assistant turn, and any other role skipped. -/
theorem C9_session_message_order (sp : Option String)
    (hist : Option (List HistMsg)) :
    createChatMessages sp hist
      = [Message.system memoryPolicy]
          ++ (match sp with
              | some s => if s = "" then [] else [Message.system s]
              | none => [])
          ++ (hist.getD []).filterMap roleMap := by
  cases hist with
  | none =>
      cases sp with
      | none => simp [createChatMessages, policyAndPrompt]
      | some s =>
          by_cases hs : s = "" <;>
            simp [createChatMessages, policyAndPrompt, hs]
  | some h =>
      simp only [createChatMessages, foldl_histStep, Option.getD]
      cases sp with
      | none => simp [policyAndPrompt]
      | some s =>
          by_cases hs : s = "" <;> simp [policyAndPrompt, hs]

/-- C9 counterexample: with a system prompt that is present but equal to
the empty string, the built message list omits it entirely (Python
truthiness), refuting the claim that the prompt appears whenever
present. -/
theorem C9_counterexample :
    createChatMessages (some "") (some [{ role := "user", content := "hi" }])
      = [Message.system memoryPolicy, Message.user "hi"] ∧
    createChatMessages (some "") (some [{ role := "user", content := "hi" }])
      ≠ [Message.system memoryPolicy, Message.system "", Message.user "hi"] := by
  constructor
  · rfl
  · intro h
    have hlen := congrArg List.length h
    rw [show createChatMessages (some "") (some [{ role := "user", content := "hi" }])
        = [Message.system memoryPolicy, Message.user "hi"] from rfl] at hlen
    simp at hlen

/-! ### `memory_search` executor (`execute_custom_tool`, lines 221-263) -/

/-- Outcome of one HTTP POST attempt against a candidate URL: a 200
response carrying a `results` list, a non-200 response, or a raised
exception (connection failure etc.). -/
inductive HttpResult where
  | ok200 (results : List String)
  | httpError (code : Nat) (body : String)
  | exn (msg : String)
  deriving Repr, DecidableEq

/-- The `last_error` detail recorded for a failed attempt (lines
252-255): `HTTP \x7bstatus\x7d: \x7btext\x7d` for a non-200 response,
`str(e)` for an exception. -/
def errDetail : HttpResult → String
  | HttpResult.ok200 _ => ""
  | HttpResult.httpError code body => "HTTP " ++ toString code ++ ": " ++ body
  | HttpResult.exn m => m

def isOk200 : HttpResult → Bool
  | HttpResult.ok200 _ => true
  | _ => false

/-- The candidate base-URL list (lines 230-233): the configured base URL
followed by the fixed alternate dev port. -/
def candidateUrls (baseUrl : String) : List String :=
  [baseUrl ++ "/api/memory/search", "http://localhost:3002/api/memory/search"]

/-- Result payload of a `memory_search` execution — always returned as
data, never thrown. -/
inductive SearchPayload where
  | errQueryRequired
  | ok (query user_id : String) (lim : Nat) (results : List String)
  | errAllFailed (details : Option String) (query user_id : String) (lim : Nat)
  deriving Repr, DecidableEq

/-- The retry loop over candidate URLs (lines 235-263): return the first
200 response's results; otherwise remember the failure detail and move
on; when the candidates are exhausted, return the error payload with the
last failure detail. -/
def searchLoop (http : String → HttpResult) (q uid : String) (lim : Nat) :
    List String → Option String → SearchPayload
  | [], lastErr => SearchPayload.errAllFailed lastErr q uid lim
  | u :: rest, _lastErr =>
      match http u with
      | HttpResult.ok200 rs => SearchPayload.ok q uid lim rs
      | r => searchLoop http q uid lim rest (some (errDetail r))

/-- The `memory_search` branch of `execute_custom_tool`: a missing or
empty query yields an error payload (the function is total — nothing is
raised); otherwise the candidates are tried in order.  `http` abstracts
the outcome of the HTTP POST to each URL. -/
def memorySearchExec (query : Option String) (user_id : Option String)
    (limit : Option Nat) (baseUrl : String) (http : String → HttpResult) :
    SearchPayload :=
  match query with
  | none => SearchPayload.errQueryRequired
  | some q =>
      if q = "" then SearchPayload.errQueryRequired
      else searchLoop http q (effUser user_id) (limit.getD 5)
        (candidateUrls baseUrl) none

/-- C6: `memory_search` returns an error payload (rather than raising)
when the query is missing or empty; otherwise it tries the candidate
URLs in order and returns the results of the first HTTP 200 response;
when every candidate fails it returns an error payload carrying the
detail of the last failure. -/
theorem C6_memory_search (baseUrl : String) (user_id : Option String)
    (limit : Option Nat) (http : String → HttpResult) :
    memorySearchExec none user_id limit baseUrl http
        = SearchPayload.errQueryRequired ∧
    memorySearchExec (some "") user_id limit baseUrl http
        = SearchPayload.errQueryRequired ∧
    (∀ q : String, q ≠ "" → ∀ (l1 : List String) (u : String) (l2 : List String),
      candidateUrls baseUrl = l1 ++ u :: l2 →
      (∀ v ∈ l1, isOk200 (http v) = false) →
      ∀ rs : List String, http u = HttpResult.ok200 rs →
        memorySearchExec (some q) user_id limit baseUrl http
          = SearchPayload.ok q (effUser user_id) (limit.getD 5) rs) ∧
    (∀ q : String, q ≠ "" →
      (∀ v ∈ candidateUrls baseUrl, isOk200 (http v) = false) →
        memorySearchExec (some q) user_id limit baseUrl http
          = SearchPayload.errAllFailed
              (some (errDetail (http "http://localhost:3002/api/memory/search")))
              q (effUser user_id) (limit.getD 5)) := by
  refine ⟨rfl, rfl, ?_, ?_⟩
  · intro q hq l1 u l2 hdec hfail rs hok
    simp only [memorySearchExec]
    rw [if_neg hq]
    rcases l1 with _ | ⟨x, l1'⟩
    · simp only [List.nil_append] at hdec
      have hu : baseUrl ++ "/api/memory/search" = u := by
        have := congrArg (fun l => l.head?) hdec
        simpa [candidateUrls] using this
      rw [candidateUrls, searchLoop, hu, hok]
    · rcases l1' with _ | ⟨y, l1''⟩
      · have hx : baseUrl ++ "/api/memory/search" = x ∧
            ("http://localhost:3002/api/memory/search" : String) = u ∧ l2 = [] := by
          rw [candidateUrls] at hdec
          simp only [List.cons_append, List.nil_append, List.cons.injEq] at hdec
          exact ⟨hdec.1, hdec.2.1, hdec.2.2.symm⟩
        obtain ⟨hx1, hx2, _⟩ := hx
        have hxfail : isOk200 (http x) = false :=
          hfail x (List.mem_singleton.mpr rfl)
        rw [candidateUrls, searchLoop]
        rw [hx1]
        cases hr : http x with
        | ok200 rs2 => rw [hr] at hxfail; simp [isOk200] at hxfail
        | httpError code body =>
            simp only
            rw [searchLoop, hx2, hok]
        | exn m =>
            simp only
            rw [searchLoop, hx2, hok]
      · have hlen := congrArg List.length hdec
        simp [candidateUrls] at hlen
  · intro q hq hfail
    simp only [memorySearchExec]
    rw [if_neg hq]
    have hf1 : isOk200 (http (baseUrl ++ "/api/memory/search")) = false :=
      hfail _ (by simp [candidateUrls])
    have hf2 : isOk200 (http "http://localhost:3002/api/memory/search") = false :=
      hfail _ (by simp [candidateUrls])
    rw [candidateUrls, searchLoop]
    cases hr1 : http (baseUrl ++ "/api/memory/search") with
    | ok200 rs => rw [hr1] at hf1; simp [isOk200] at hf1
    | httpError code body =>
        simp only
        rw [searchLoop]
        cases hr2 : http "http://localhost:3002/api/memory/search" with
        | ok200 rs => rw [hr2] at hf2; simp [isOk200] at hf2
        | httpError c2 b2 => simp only [searchLoop, hr2]
        | exn m2 => simp only [searchLoop, hr2]
    | exn m =>
        simp only
        rw [searchLoop]
        cases hr2 : http "http://localhost:3002/api/memory/search" with
        | ok200 rs => rw [hr2] at hf2; simp [isOk200] at hf2
        | httpError c2 b2 => simp only [searchLoop, hr2]
        | exn m2 => simp only [searchLoop, hr2]

/-! ### Witnesses -/

/-- Witness for C1 on a concrete two-fragment stream. -/
theorem C1_complete_content_concat_witness :
    Event.complete "abcd" [] usage0 [] []
        ∈ streamResponse 3 [chunkAB, chunkCD] none emptyDB ∧
    "abcd" = strConcat (contentTexts
      (streamResponse 3 [chunkAB, chunkCD] none emptyDB)) :=
  ⟨by decide, C1_complete_content_concat 3 [chunkAB, chunkCD] none emptyDB
      "abcd" [] usage0 [] [] (by decide)⟩

/-- Witness for C3 with cap 1 and a state already at the cap. -/
theorem C3_write_cap_witness :
    1 ≤ capState.writes ∧
    ((runChunks 1 [capChunk] (initState emptyDB)).2.writes ≤ 1 ∧
     (streamResponse 1 [capChunk] none emptyDB).countP Event.isSuccessResult ≤ 1 ∧
     (processToolCalls 1 [tcGood] capState).1.countP Event.isToolResult = 0 ∧
     (processToolCalls 1 [tcGood] capState).2.db = capState.db ∧
     (processToolCalls 1 [tcGood] capState).2.writes = capState.writes) :=
  ⟨by decide, C3_write_cap 1 [capChunk] none emptyDB [tcGood] capState (by decide)⟩

/-- Witness for C4 on the concrete pair of the spec's example. -/
theorem C4_memory_add_dedup_witness :
    (pyStrip "likes flat whites" = "likes flat whites" ∧
     ("likes flat whites" : String) ≠ "" ∧ ("u1" : String) ≠ "" ∧
     countPair emptyDB "u1" "likes flat whites" = 0) ∧
    ∃ X db1,
      memoryAddExec { text := some "likes flat whites", user_id := some "u1",
                      mtype := none, category := none, date := none } emptyDB
          = (MemAddResult.ok X false, db1) ∧
      memoryAddExec { text := some "likes flat whites", user_id := some "u1",
                      mtype := none, category := none, date := none } db1
          = (MemAddResult.ok X true, db1) ∧
      countPair db1 "u1" "likes flat whites" = 1 :=
  ⟨⟨by decide, by decide, by decide, by decide⟩,
   C4_memory_add_dedup "u1" "likes flat whites" emptyDB (by decide) (by decide)
     (by decide) (by decide)⟩

/-- Witness for C5 with a concrete memory-write call under the cap. -/
theorem C5_inline_execution_witness :
    ((tcGood.name = "memory_add" ∨ tcGood.name = "store_memory") ∧
     (initState emptyDB).writes < 1) ∧
    ((∀ e ∈ streamResponse 1 [whoopChunk] none emptyDB, e.isToolResult = true →
        e.toolName = "memory_add" ∨ e.toolName = "store_memory") ∧
     (processToolCall 1 tcGood (initState emptyDB)).1
       = [Event.toolCall tcGood.name tcGood.arguments tcGood.id,
          Event.toolResult tcGood.name
            (memoryAddExec (coerceArgs tcGood.arguments) (initState emptyDB).db).1]) :=
  ⟨⟨Or.inl rfl, by decide⟩,
   C5_inline_execution 1 [whoopChunk] none emptyDB tcGood (initState emptyDB)
     (Or.inl rfl) (by decide)⟩

/-- HTTP world for the C6 witness: the first candidate URL succeeds. -/
def httpW : String → HttpResult := fun u =>
  if u = "http://b/api/memory/search" then HttpResult.ok200 ["m1"]
  else HttpResult.exn "connection refused"

/-- Witness for C6 on a concrete base URL where the first candidate
returns HTTP 200. -/
theorem C6_memory_search_witness :
    memorySearchExec (some "coffee") none none "http://b" httpW
      = SearchPayload.ok "coffee" "default" 5 ["m1"] :=
  (C6_memory_search "http://b" none none httpW).2.2.1 "coffee" (by decide)
    [] "http://b/api/memory/search" ["http://localhost:3002/api/memory/search"]
    (by decide) (by decide) ["m1"] (by decide)

/-- Witness for C7 on a concrete erroring stream. -/
theorem C7_single_terminal_witness :
    (streamResponse 3 [] (some "boom") emptyDB).countP Event.isTerminal = 1 ∧
    (streamResponse 3 [] (some "boom") emptyDB).getLast?
      = some (Event.error "boom") :=
  ⟨(C7_single_terminal 3 [] (some "boom") emptyDB).1,
   (C7_single_terminal 3 [] (some "boom") emptyDB).2.2 "boom" rfl⟩

/-- Witness for C8 on concrete completing and erroring streams. -/
theorem C8_chat_endpoint_witness :
    chatEndpoint 3 [chunkAB] none emptyDB
      = ChatResponse.event (Event.complete "ab" [] usage0 [] []) ∧
    chatEndpoint 3 [chunkAB] (some "x") emptyDB = ChatResponse.noResponse :=
  ⟨(C8_chat_endpoint 3 [chunkAB] emptyDB "x").1
      (Event.complete "ab" [] usage0 [] []) (by decide) (by decide),
   (C8_chat_endpoint 3 [chunkAB] emptyDB "x").2⟩

end WrathShield
